import Mathlib

/-!
Verification of the consul-ns1 catalog synchronizer.

This file is a shallow embedding of the reconciliation core of the
consul-ns1 repository: the data model and the diffing functions of
`catalog` (`service`, `node`, `srvAnswer`, `serviceOnlyInFirst`,
`nodesAreEqual`, `onlyInFirst`), the Consul-side snapshot builder
(`transformServices`, `transformNodes`, `transformHealth`, `fetch`,
`fetchIndefinitely`), and the NS1-side functions
(`transformZoneRecords`, `generateRecord`, `create`, `remove`).

Go maps are embedded as association lists (`List (K × V)`); a snapshot
taken from a Go map has pairwise-distinct keys, which appears below as
`Nodup` well-formedness hypotheses.  Mutating Go code is embedded as
pure state-passing functions; remote calls are passed in as oracle
functions; code that can panic returns `Option`.
-/

namespace ConsulNS1

/-! ## Association lists: the embedding of Go maps -/

/-- Lookup in an association list: the value at the first matching key,
the embedding of Go's `m[k]` read (`v, ok := m[k]`). -/
def lookupA {K V : Type} [DecidableEq K] : List (K × V) → K → Option V
  | [], _ => none
  | (k', v) :: rest, k => if k' = k then some v else lookupA rest k

/-- Insert/overwrite in an association list, the embedding of Go's
`m[k] = v` assignment: replace the first binding of `k` in place, else
append. -/
def insertA {K V : Type} [DecidableEq K] : List (K × V) → K → V → List (K × V)
  | [], k, v => [(k, v)]
  | (k', v') :: rest, k, v =>
      if k' = k then (k, v) :: rest else (k', v') :: insertA rest k v

/-- The keys of an association list. -/
def keysA {K V : Type} (l : List (K × V)) : List K := l.map Prod.fst

theorem lookupA_eq_none_iff {K V : Type} [DecidableEq K]
    (l : List (K × V)) (k : K) : lookupA l k = none ↔ k ∉ keysA l := by
  induction l with
  | nil => simp [lookupA, keysA]
  | cons p rest ih =>
      obtain ⟨k', v⟩ := p
      by_cases h : k' = k
      · subst h
        simp [lookupA, keysA]
      · simp only [lookupA, keysA, List.map_cons, if_neg h, List.mem_cons]
        rw [ih]
        constructor
        · rintro hnone (h1 | h2)
          · exact h h1.symm
          · exact hnone h2
        · intro hnot
          exact fun h2 => hnot (Or.inr h2)

theorem lookupA_isSome_iff {K V : Type} [DecidableEq K]
    (l : List (K × V)) (k : K) : (lookupA l k).isSome ↔ k ∈ keysA l := by
  rcases h : lookupA l k with _ | v
  · simp only [Option.isSome_none, Bool.false_eq_true, false_iff]
    exact (lookupA_eq_none_iff l k).1 h
  · simp only [Option.isSome_some, true_iff]
    by_contra hk
    rw [(lookupA_eq_none_iff l k).2 hk] at h
    exact Option.noConfusion h

theorem mem_of_lookupA {K V : Type} [DecidableEq K]
    {l : List (K × V)} {k : K} {v : V} (h : lookupA l k = some v) :
    (k, v) ∈ l := by
  induction l with
  | nil => simp [lookupA] at h
  | cons p rest ih =>
      obtain ⟨k', v'⟩ := p
      by_cases hk : k' = k
      · subst hk
        simp [lookupA] at h
        simp [h]
      · simp [lookupA, hk] at h
        exact List.mem_cons_of_mem _ (ih h)

theorem lookupA_of_mem_nodup {K V : Type} [DecidableEq K]
    {l : List (K × V)} (hnd : (keysA l).Nodup) {k : K} {v : V}
    (h : (k, v) ∈ l) : lookupA l k = some v := by
  induction l with
  | nil => simp at h
  | cons p rest ih =>
      obtain ⟨k', v'⟩ := p
      simp only [keysA, List.map_cons, List.nodup_cons] at hnd
      rcases List.mem_cons.1 h with h0 | h0
      · obtain ⟨rfl, rfl⟩ := Prod.mk.injEq .. ▸ h0
        simp [lookupA]
      · have hk : k' ≠ k := by
          rintro rfl
          exact hnd.1 (List.mem_map.2 ⟨(k', v), h0, rfl⟩)
        simp [lookupA, hk]
        exact ih hnd.2 h0

theorem mem_keysA_of_mem {K V : Type} {l : List (K × V)} {p : K × V}
    (h : p ∈ l) : p.1 ∈ keysA l := List.mem_map.2 ⟨p, h, rfl⟩

/-! ## Data model (`catalog`, file `part_001`)

Go `int64` fields are embedded as `Int`; the programs never overflow
them on the paths the claims concern (values come from `ParseInt` with
`bitSize` 64, whose range check is part of the embedding `parseIntGo`).
-/

/-- `health`: the health enum of a service instance. -/
inductive health : Type
  | passing
  | critical
  | unknown
deriving DecidableEq, Repr

/-- `srvAnswer`: one SRV answer `priority weight port address`. -/
structure srvAnswer : Type where
  priority : Int
  weight : Int
  port : Int
  address : String
deriving DecidableEq, Repr

/-- `recordIDs`: the pair of provider-side record identifiers. -/
structure recordIDs : Type where
  aRecID : String := ""
  srvRecID : String := ""
deriving DecidableEq, Repr

/-- `recordTTLs`: the pair of record TTLs, in seconds. -/
structure recordTTLs : Type where
  aRecTTL : Int := 0
  srvRecTTL : Int := 0
deriving DecidableEq, Repr

/-- `node`: one instance of a service (Go struct `node`).  The fields
`host`, `datacenter` and `consulID` exist in the struct but are never
compared by `nodesAreEqual`. -/
structure node : Type where
  host : String := ""
  datacenter : String := ""
  consulID : String := ""
  aRecAnswer : String := ""
  srvRecAnswers : List (Int × srvAnswer) := []
deriving DecidableEq, Repr

/-- `service`: a named unit projected into DNS (Go struct `service`). -/
structure service : Type where
  id : String := ""
  name : String := ""
  nodes : List (String × node) := []
  healths : List (String × health) := []
  ttls : recordTTLs := {}
  ns1IDs : recordIDs := {}
  consulID : String := ""
deriving DecidableEq, Repr

/-- `srvAnswer.String`: `fmt.Sprintf("%d %d %d %s", priority, weight,
port, address)`. -/
def srvAnswerString (a : srvAnswer) : String :=
  toString a.priority ++ " " ++ toString a.weight ++ " " ++
    toString a.port ++ " " ++ a.address

/-! ## The diff (`part_001`) -/

/-- `serviceOnlyInFirst`: the services of `servicesA` whose key does not
occur in `servicesB`.  Value differences are ignored. -/
def serviceOnlyInFirst (servicesA servicesB : List (String × service)) :
    List (String × service) :=
  servicesA.filterMap (fun p =>
    match lookupA servicesB p.1 with
    | none => some p
    | some _ => none)

/-- The inner SRV-answer comparison loop of `nodesAreEqual`: every
`(port, answer)` of `expected` is bound in `actual` to an equal answer. -/
def srvAnswersMatch (expectedSrv actualSrv : List (Int × srvAnswer)) : Bool :=
  expectedSrv.all (fun pe =>
    match lookupA actualSrv pe.1 with
    | some actualSrvAns => decide (pe.2 = actualSrvAns)
    | none => false)

/-- `nodesAreEqual`: structural comparison of two node maps — equal
sizes, and for every node of `expected` a node in `actual` with the same
key, the same `aRecAnswer` and the same SRV answers. -/
def nodesAreEqual (expected actual : List (String × node)) : Bool :=
  if expected.length ≠ actual.length then false
  else
    expected.all (fun he =>
      match lookupA actual he.1 with
      | none => false
      | some actualNode =>
          decide (actualNode.aRecAnswer = he.2.aRecAnswer) &&
          decide (he.2.srvRecAnswers.length = actualNode.srvRecAnswers.length) &&
          srvAnswersMatch he.2.srvRecAnswers actualNode.srvRecAnswers)

/-- The upsert-payload merge of `onlyInFirst` (lines 104–138 of its
body): identifiers, name and TTLs that are empty (or zero) on the `sa`
side are backfilled from `sb`; nodes come from `sa` (`s.nodes` is only
set when non-empty, which in the list embedding coincides with always
taking `sa.nodes`). -/
def mergeService (sa sb : service) : service :=
  { id := if sa.id.length = 0 then sb.id else sa.id
    name := if sa.name.length = 0 then sb.name else sa.name
    nodes := sa.nodes
    healths := []
    ttls :=
      { aRecTTL := if sa.ttls.aRecTTL = 0 then sb.ttls.aRecTTL else sa.ttls.aRecTTL
        srvRecTTL := if sa.ttls.srvRecTTL = 0 then sb.ttls.srvRecTTL else sa.ttls.srvRecTTL }
    ns1IDs :=
      { aRecID := if sa.ns1IDs.aRecID.length = 0 then sb.ns1IDs.aRecID else sa.ns1IDs.aRecID
        srvRecID := if sa.ns1IDs.srvRecID.length = 0 then sb.ns1IDs.srvRecID else sa.ns1IDs.srvRecID }
    consulID := "" }

/-- `onlyInFirst`: the upsert set.  A service of `servicesA` is kept when
its key is absent from `servicesB`, or present with structurally
different nodes or different TTLs, in which case the payload is the
backfilled merge. -/
def onlyInFirst (servicesA servicesB : List (String × service)) :
    List (String × service) :=
  servicesA.filterMap (fun p =>
    match lookupA servicesB p.1 with
    | none => some p
    | some sb =>
        if !nodesAreEqual p.2.nodes sb.nodes || !decide (p.2.ttls = sb.ttls) then
          some (p.1, mergeService p.2 sb)
        else none)

/-! ## Well-formedness: snapshots taken from Go maps have distinct keys -/

/-- A node map is well formed when its address keys are distinct and
each node's SRV answers have distinct port keys. -/
def WFnodes (ns : List (String × node)) : Prop :=
  (keysA ns).Nodup ∧ ∀ p ∈ ns, (keysA p.2.srvRecAnswers).Nodup

/-- A snapshot is well formed when its service keys are distinct and
each service's node map is well formed. -/
def WFsnap (s : List (String × service)) : Prop :=
  (keysA s).Nodup ∧ ∀ p ∈ s, WFnodes p.2.nodes

/-! ## Spec-side structural equality of instance sets

These definitions follow the spec's words ("same set of address keys,
and for each key, equal `aAnswer` and equal `srvAnswers`"), to be
compared with the source function `nodesAreEqual`. -/

/-- Pointwise lifting of a relation to optional values: both absent, or
both present and related. -/
def optionRel {V : Type} (R : V → V → Prop) : Option V → Option V → Prop
  | none, none => True
  | some x, some y => R x y
  | _, _ => False

/-- Equality of SRV answer maps as partial functions from ports. -/
def srvMapsEqual (x y : List (Int × srvAnswer)) : Prop :=
  ∀ p, lookupA x p = lookupA y p

/-- The instance fields the projection compares: the A answer and the
SRV answers (the `host`, `datacenter`, `consulID` fields do not count). -/
def nodeProjEq (x y : node) : Prop :=
  x.aRecAnswer = y.aRecAnswer ∧ srvMapsEqual x.srvRecAnswers y.srvRecAnswers

/-- Structural equality of two instance sets: the same address keys and,
at each address, projection-equal nodes. -/
def instancesEquiv (a b : List (String × node)) : Prop :=
  ∀ h, optionRel nodeProjEq (lookupA a h) (lookupA b h)

theorem optionRel_eq_iff {V : Type} (x y : Option V) :
    optionRel Eq x y ↔ x = y := by
  cases x <;> cases y <;> simp [optionRel]

/-- The workhorse: over association lists with distinct keys, the Go
"same length plus every left entry found on the right" comparison scheme
coincides with pointwise relatedness of the two maps as partial
functions. -/
theorem assocRel_iff {K V : Type} [DecidableEq K] (R : V → V → Prop)
    {a b : List (K × V)} (ha : (keysA a).Nodup) (hb : (keysA b).Nodup) :
    (a.length = b.length ∧ ∀ p ∈ a, ∃ w, lookupA b p.1 = some w ∧ R p.2 w) ↔
      ∀ k, optionRel R (lookupA a k) (lookupA b k) := by
  have hlenA : (keysA a).length = a.length := List.length_map _ _
  have hlenB : (keysA b).length = b.length := List.length_map _ _
  constructor
  · rintro ⟨hlen, hall⟩ k
    have hsub : keysA a ⊆ keysA b := by
      intro x hx
      obtain ⟨p, hp, rfl⟩ := List.mem_map.1 hx
      obtain ⟨w, hw, -⟩ := hall p hp
      exact (lookupA_isSome_iff b p.1).1 (by simp [hw])
    rcases hcase : lookupA a k with _ | v
    · rcases hcaseb : lookupA b k with _ | w
      · trivial
      · exfalso
        have hka : k ∉ keysA a := (lookupA_eq_none_iff a k).1 hcase
        have hkb : k ∈ keysA b :=
          (lookupA_isSome_iff b k).1 (by simp [hcaseb])
        have hnd : (k :: keysA a).Nodup := List.nodup_cons.2 ⟨hka, ha⟩
        have hsub2 : (k :: keysA a) ⊆ keysA b := by
          intro x hx
          rcases List.mem_cons.1 hx with rfl | hx
          · exact hkb
          · exact hsub hx
        have := (hnd.subperm hsub2).length_le
        simp [hlenA, hlenB, hlen] at this
    · obtain ⟨w, hw, hr⟩ := hall (k, v) (mem_of_lookupA hcase)
      simp only at hw
      rw [hw]
      exact hr
  · intro h
    have hsub : keysA a ⊆ keysA b := by
      intro x hx
      have hx' := (lookupA_isSome_iff a x).2 hx
      rcases hcase : lookupA a x with _ | v
      · rw [hcase] at hx'
        exact absurd hx' (by simp)
      · have := h x
        rw [hcase] at this
        rcases hcaseb : lookupA b x with _ | w
        · rw [hcaseb] at this
          exact absurd this (by simp [optionRel])
        · exact (lookupA_isSome_iff b x).1 (by simp [hcaseb])
    have hsub' : keysA b ⊆ keysA a := by
      intro x hx
      have hx' := (lookupA_isSome_iff b x).2 hx
      rcases hcase : lookupA b x with _ | v
      · rw [hcase] at hx'
        exact absurd hx' (by simp)
      · have := h x
        rw [hcase] at this
        rcases hcasea : lookupA a x with _ | w
        · rw [hcasea] at this
          exact absurd this (by simp [optionRel])
        · exact (lookupA_isSome_iff a x).1 (by simp [hcasea])
    constructor
    · have h1 := (ha.subperm hsub).length_le
      have h2 := (hb.subperm hsub').length_le
      omega
    · intro p hp
      have hpa : lookupA a p.1 = some p.2 := lookupA_of_mem_nodup ha hp
      have := h p.1
      rw [hpa] at this
      rcases hcaseb : lookupA b p.1 with _ | w
      · rw [hcaseb] at this
        exact absurd this (by simp [optionRel])
      · rw [hcaseb] at this
        exact ⟨w, rfl, this⟩

theorem srvAnswersMatch_iff (e a : List (Int × srvAnswer)) :
    srvAnswersMatch e a = true ↔
      ∀ pe ∈ e, ∃ w, lookupA a pe.1 = some w ∧ pe.2 = w := by
  unfold srvAnswersMatch
  rw [List.all_eq_true]
  apply forall_congr'
  intro pe
  apply imp_congr_right
  intro _
  rcases hc : lookupA a pe.1 with _ | w
  · simp
  · simp

/-- The `length`+`srvAnswersMatch` comparison of SRV answer maps is
their equality as partial functions from ports, given distinct port
keys. -/
theorem srvAnswersMatch_len_iff {e a : List (Int × srvAnswer)}
    (he : (keysA e).Nodup) (ha : (keysA a).Nodup) :
    (e.length = a.length ∧ srvAnswersMatch e a = true) ↔ srvMapsEqual e a := by
  rw [srvAnswersMatch_iff]
  rw [assocRel_iff Eq he ha]
  unfold srvMapsEqual
  exact forall_congr' (fun k => optionRel_eq_iff _ _)

theorem nodesAreEqual_eq_parts {a b : List (String × node)}
    (ha : WFnodes a) (hb : WFnodes b) :
    nodesAreEqual a b = true ↔
      (a.length = b.length ∧
        ∀ p ∈ a, ∃ w, lookupA b p.1 = some w ∧ nodeProjEq p.2 w) := by
  unfold nodesAreEqual
  by_cases hlen : a.length = b.length
  · rw [if_neg (by simp [hlen]), List.all_eq_true]
    simp only [hlen, true_and]
    constructor
    · intro h p hp
      have hbody := h p hp
      rcases hc : lookupA b p.1 with _ | an
      · rw [hc] at hbody
        simp at hbody
      · rw [hc] at hbody
        simp only [Bool.and_eq_true, decide_eq_true_eq] at hbody
        obtain ⟨⟨h1, h2⟩, h3⟩ := hbody
        have hnda : (keysA p.2.srvRecAnswers).Nodup := ha.2 p hp
        have hndb : (keysA an.srvRecAnswers).Nodup :=
          hb.2 (p.1, an) (mem_of_lookupA hc)
        exact ⟨an, rfl, h1.symm, (srvAnswersMatch_len_iff hnda hndb).1 ⟨h2, h3⟩⟩
    · intro h p hp
      obtain ⟨an, hc, hproj⟩ := h p hp
      rw [hc]
      have hnda : (keysA p.2.srvRecAnswers).Nodup := ha.2 p hp
      have hndb : (keysA an.srvRecAnswers).Nodup :=
        hb.2 (p.1, an) (mem_of_lookupA hc)
      have hsrv := (srvAnswersMatch_len_iff hnda hndb).2 hproj.2
      simp only [Bool.and_eq_true, decide_eq_true_eq]
      exact ⟨⟨hproj.1.symm, hsrv.1⟩, hsrv.2⟩
  · rw [if_pos (by simp [hlen])]
    simp [hlen]

/-- Refinement: the source comparison `nodesAreEqual` decides exactly
the spec's structural equality of instance sets, on well-formed node
maps. -/
theorem nodesAreEqual_iff_instancesEquiv {a b : List (String × node)}
    (ha : WFnodes a) (hb : WFnodes b) :
    nodesAreEqual a b = true ↔ instancesEquiv a b := by
  rw [nodesAreEqual_eq_parts ha hb]
  exact assocRel_iff nodeProjEq ha.1 hb.1

theorem mem_keysA_filterMap {K V : Type} [DecidableEq K]
    {f : (K × V) → Option (K × V)} (hf : ∀ p q, f p = some q → q.1 = p.1)
    (l : List (K × V)) (k : K) :
    k ∈ keysA (l.filterMap f) ↔ ∃ p ∈ l, p.1 = k ∧ (f p).isSome := by
  constructor
  · intro hk
    obtain ⟨q, hq, rfl⟩ := List.mem_map.1 hk
    obtain ⟨p, hp, hfp⟩ := List.mem_filterMap.1 hq
    exact ⟨p, hp, (hf p q hfp).symm, by simp [hfp]⟩
  · rintro ⟨p, hp, rfl, hs⟩
    obtain ⟨q, hq⟩ := Option.isSome_iff_exists.1 hs
    have hmem : q ∈ l.filterMap f := List.mem_filterMap.2 ⟨p, hp, hq⟩
    have := mem_keysA_of_mem hmem
    rwa [hf p q hq] at this

theorem exists_mem_key_iff_lookup {K V : Type} [DecidableEq K]
    {l : List (K × V)} (hnd : (keysA l).Nodup) (P : K × V → Prop) (k : K) :
    (∃ p ∈ l, p.1 = k ∧ P p) ↔ ∃ v, lookupA l k = some v ∧ P (k, v) := by
  constructor
  · rintro ⟨⟨k', v⟩, hp, rfl, hP⟩
    exact ⟨v, lookupA_of_mem_nodup hnd hp, hP⟩
  · rintro ⟨v, hl, hP⟩
    exact ⟨(k, v), mem_of_lookupA hl, rfl, hP⟩

theorem isSome_ite_some_none {α : Type} (C : Prop) [Decidable C] (x : α) :
    (if C then some x else none).isSome = true ↔ C := by
  by_cases h : C <;> simp [h]

/-! ## Claim C1 -/

/-- C1: for every desired snapshot `D` and observed snapshot `O` (well
formed, as snapshots of Go maps are), a reconciliation pass passes to
the upsert operation exactly the keys `k ∈ D` with `k ∉ O`, or
structurally different instance sets, or different TTL pairs; and to the
delete operation exactly the keys present in `O` and absent from `D`. -/
theorem upsert_delete_sets_characterized
    (D O : List (String × service)) (hD : WFsnap D) (hO : WFsnap O) :
    (∀ k, k ∈ keysA (onlyInFirst D O) ↔
      ∃ sa, lookupA D k = some sa ∧
        (lookupA O k = none ∨
          ∃ sb, lookupA O k = some sb ∧
            (¬ instancesEquiv sa.nodes sb.nodes ∨ sa.ttls ≠ sb.ttls))) ∧
    (∀ k, k ∈ keysA (serviceOnlyInFirst O D) ↔ k ∈ keysA O ∧ k ∉ keysA D) := by
  constructor
  · intro k
    unfold onlyInFirst
    rw [mem_keysA_filterMap ?hf D k]
    case hf =>
      intro p q hfq
      rcases hc : lookupA O p.1 with _ | sb <;> rw [hc] at hfq
      · simp at hfq
        simp [← hfq]
      · dsimp only at hfq
        split at hfq
        · simp [← Option.some.inj hfq]
        · exact Option.noConfusion hfq
    rw [exists_mem_key_iff_lookup hD.1 _ k]
    apply exists_congr
    intro sa
    apply and_congr_right
    intro hsa
    have hWFa : WFnodes sa.nodes := hD.2 (k, sa) (mem_of_lookupA hsa)
    rcases hc : lookupA O k with _ | sb
    · simp
    · have hWFb : WFnodes sb.nodes := hO.2 (k, sb) (mem_of_lookupA hc)
      have hiff := nodesAreEqual_iff_instancesEquiv hWFa hWFb
      show (if (!nodesAreEqual sa.nodes sb.nodes || !decide (sa.ttls = sb.ttls)) = true
          then some (k, mergeService sa sb) else none).isSome = true ↔ _
      rw [isSome_ite_some_none]
      simp only [Bool.or_eq_true, Bool.not_eq_true', decide_eq_false_iff_not,
        Option.some.injEq, reduceCtorEq, false_or]
      constructor
      · rintro (hne | hne)
        · exact ⟨sb, rfl, Or.inl (fun heq => by rw [hiff.2 heq] at hne; exact Bool.noConfusion hne)⟩
        · exact ⟨sb, rfl, Or.inr hne⟩
      · rintro ⟨sb2, rfl, hdiff⟩
        rcases hdiff with hne | hne
        · refine Or.inl ?_
          by_cases hb : nodesAreEqual sa.nodes sb.nodes = true
          · exact absurd (hiff.1 hb) hne
          · exact Bool.eq_false_iff.2 hb
        · exact Or.inr hne
  · intro k
    unfold serviceOnlyInFirst
    rw [mem_keysA_filterMap ?hf O k]
    case hf =>
      intro p q hfq
      rcases hc : lookupA D p.1 with _ | sb <;> rw [hc] at hfq
      · simp at hfq
        simp [← hfq]
      · exact Option.noConfusion hfq
    constructor
    · rintro ⟨p, hp, rfl, hs⟩
      refine ⟨mem_keysA_of_mem hp, ?_⟩
      rcases hc : lookupA D p.1 with _ | sb
      · exact (lookupA_eq_none_iff D p.1).1 hc
      · rw [hc] at hs
        exact absurd hs (by simp)
    · rintro ⟨hkO, hkD⟩
      obtain ⟨p, hp, rfl⟩ := List.mem_map.1 hkO
      refine ⟨p, hp, rfl, ?_⟩
      rw [(lookupA_eq_none_iff D p.1).2 hkD]
      simp

/-- A one-service desired snapshot used by the concrete witnesses. -/
def snapD1 : List (String × service) :=
  [("a", { name := "a", ttls := { aRecTTL := 1, srvRecTTL := 1 } })]

/-- Witness for C1: on the concrete snapshots `snapD1` and `[]`, the
hypotheses hold and the characterization puts `"a"` in the upsert set. -/
theorem upsert_delete_sets_characterized_witness :
    WFsnap snapD1 ∧
      ("a" ∈ keysA (onlyInFirst snapD1 []) ↔
        ∃ sa, lookupA snapD1 "a" = some sa ∧
          (lookupA ([] : List (String × service)) "a" = none ∨
            ∃ sb, lookupA ([] : List (String × service)) "a" = some sb ∧
              (¬ instancesEquiv sa.nodes sb.nodes ∨ sa.ttls ≠ sb.ttls))) :=
  ⟨by constructor <;> simp [keysA, snapD1, WFnodes],
    (upsert_delete_sets_characterized snapD1 []
      (by constructor <;> simp [keysA, snapD1, WFnodes])
      (by constructor <;> simp [keysA])).1 "a"⟩

/-! ## String utilities used by the NS1 side

`strFields` embeds Go's `strings.Fields` (split around runs of
whitespace per `unicode.IsSpace`, Latin-1 range); `parseIntGo` embeds
`strconv.ParseInt(s, 10, 64)`; `trimPre`/`trimSuf` embed
`strings.TrimPrefix`/`strings.TrimSuffix`. -/

/-- `unicode.IsSpace` on the characters Go recognizes as white space in
the Latin-1 range: space, `\t`, `\n`, `\v`, `\f`, `\r`, NEL, NBSP. -/
def isSpaceGo (c : Char) : Bool :=
  c == ' ' || c == '\t' || c == '\n' || c == Char.ofNat 11 ||
    c == Char.ofNat 12 || c == '\r' || c == Char.ofNat 133 || c == Char.ofNat 160

/-- Accumulator pass of `strings.Fields`: `acc` holds the current token
reversed. -/
def fieldsAux : List Char → List Char → List (List Char)
  | acc, [] => if acc.isEmpty then [] else [acc.reverse]
  | acc, c :: cs =>
      if isSpaceGo c then
        if acc.isEmpty then fieldsAux [] cs else acc.reverse :: fieldsAux [] cs
      else fieldsAux (c :: acc) cs

/-- `strings.Fields`: the maximal runs of non-whitespace characters. -/
def strFields (s : String) : List String :=
  (fieldsAux [] s.data).map (fun l => String.mk l)

/-- `strconv.ParseInt(s, 10, 64)`: optional sign, one or more decimal
digits, result within the `int64` range; anything else is an error. -/
def parseIntGo (s : String) : Option Int :=
  let signDigits : Int × List Char :=
    match s.data with
    | '+' :: rest => (1, rest)
    | '-' :: rest => (-1, rest)
    | _ => (1, s.data)
  let digits := signDigits.2
  if digits.isEmpty then none
  else if digits.all Char.isDigit then
    let v : Int :=
      signDigits.1 * digits.foldl (fun a c => a * 10 + ((c.toNat - 48 : Nat) : Int)) 0
    if -(2 ^ 63) ≤ v ∧ v ≤ 2 ^ 63 - 1 then some v else none
  else none

/-- `strings.TrimPrefix`, on the character lists of the strings. -/
def trimPre (s pre : String) : String :=
  if pre.data.isPrefixOf s.data then String.mk (s.data.drop pre.data.length) else s

/-- `strings.TrimSuffix`, on the character lists of the strings. -/
def trimSuf (s suf : String) : String :=
  if suf.data.isSuffixOf s.data then
    String.mk (s.data.take (s.data.length - suf.data.length))
  else s

/-! ## NS1 side (`catalog/ns1.go`)

The NS1 REST client is passed in as an oracle `get` (for
`Records.Get`); the record mutations `Create`/`Update`/`Delete` are
reified as a list of `WriteOp` values in the order the loop issues
them (the Go code fires them concurrently; the claims below are about
which writes are issued, never about their order). -/

/-- The fields of `dns.Record` the synchronizer reads or writes. -/
structure DNSRecord : Type where
  zone : String := ""
  domain : String := ""
  rtype : String := ""
  answers : List (List String) := []
  ttl : Int := 0
deriving DecidableEq, Repr

/-- A DNS mutation issued by the synchronizer. -/
inductive WriteOp : Type
  | createRec : DNSRecord → WriteOp
  | updateRec : DNSRecord → WriteOp
  | deleteRec : (zone domain rtype : String) → WriteOp
deriving DecidableEq, Repr

/-- `generateRecord`: with an empty `id`, a fresh record for
`name + "." + zoneName`; otherwise the record fetched from the provider
(`none` embeds the fetch error).  Either way answers are wiped and the
TTL is overwritten with the configured `dnsTTL`. -/
def generateRecord (get : String → String → String → Option DNSRecord)
    (zoneName : String) (dnsTTL : Int) (id name t : String) : Option DNSRecord :=
  (if id = "" then
      some { zone := zoneName, domain := name ++ "." ++ zoneName, rtype := t }
    else get zoneName (name ++ "." ++ zoneName) t).map
    (fun r => { r with answers := [], ttl := dnsTTL })

/-- The A answers `create` adds for a service: one `[address]` rdata per
node with a non-empty `aRecAnswer`. -/
def aAnswersOf (s : service) : List (List String) :=
  s.nodes.filterMap (fun p =>
    if p.2.aRecAnswer ≠ "" then some [p.2.aRecAnswer] else none)

/-- The SRV answers `create` adds for a service:
`strings.Fields(a.String())` for every SRV answer of every node. -/
def srvAnswersOf (s : service) : List (List String) :=
  s.nodes.flatMap (fun p =>
    p.2.srvRecAnswers.map (fun q => strFields (srvAnswerString q.2)))

/-- The record `create` sends for one service and one type: the
generated record with the answers added; when the provider fetch fails
the record is regenerated fresh (`generateRecord` with an empty id,
which cannot fail). -/
def buildRecord (get : String → String → String → Option DNSRecord)
    (zoneName : String) (dnsTTL : Int) (recID name t : String)
    (answers : List (List String)) : DNSRecord :=
  match generateRecord get zoneName dnsTTL recID name t with
  | some r => { r with answers := answers }
  | none => { (generateRecord get zoneName dnsTTL "" name t).getD {} with answers := answers }

/-- `upsertRecord`: a create call when the record ID is empty, an update
call otherwise. -/
def upsertOpFor (id : String) (r : DNSRecord) : WriteOp :=
  if id = "" then WriteOp.createRec r else WriteOp.updateRec r

/-- `ns1.create`: the writes one pass issues for the upsert set — per
service, one A upsert and one SRV upsert on domain
`ns1Prefix + key + "." + zoneName`. -/
def create (get : String → String → String → Option DNSRecord)
    (pre zoneName : String) (dnsTTL : Int)
    (services : List (String × service)) : List WriteOp :=
  services.flatMap (fun p =>
    let name := pre ++ p.1
    let aRec := buildRecord get zoneName dnsTTL p.2.ns1IDs.aRecID name "A" (aAnswersOf p.2)
    let srvRec := buildRecord get zoneName dnsTTL p.2.ns1IDs.srvRecID name "SRV" (srvAnswersOf p.2)
    [upsertOpFor p.2.ns1IDs.aRecID aRec, upsertOpFor p.2.ns1IDs.srvRecID srvRec])

/-- `ns1.remove`: the deletes one pass issues for the deletion set — per
service, one delete per record type with a non-empty stored ID, on the
projected domain, or on the bare zone name for the apex case. -/
def remove (pre zoneName : String) (services : List (String × service)) :
    List WriteOp :=
  services.flatMap (fun p =>
    let domain :=
      if p.1 = zoneName then zoneName else pre ++ p.1 ++ "." ++ zoneName
    (if p.2.ns1IDs.aRecID.length ≠ 0 then [WriteOp.deleteRec zoneName domain "A"] else []) ++
      (if p.2.ns1IDs.srvRecID.length ≠ 0 then [WriteOp.deleteRec zoneName domain "SRV"] else []))

/-! ## Claims C2 and C3 -/

theorem string_length_eq_zero_iff (s : String) : s.length = 0 ↔ s = "" := by
  constructor
  · intro h
    exact String.ext (List.eq_nil_of_length_eq_zero h)
  · intro h
    subst h
    rfl

/-- `nodesAreEqual` is reflexive on well-formed node maps. -/
theorem nodesAreEqual_refl {ns : List (String × node)} (h : WFnodes ns) :
    nodesAreEqual ns ns = true := by
  rw [nodesAreEqual_eq_parts h h]
  exact ⟨rfl, fun p hp =>
    ⟨p.2, lookupA_of_mem_nodup h.1 hp, rfl, fun q => rfl⟩⟩

/-- C2: reconciling a snapshot against itself yields an empty upsert set
and an empty deletion set, and hence the pass issues zero DNS writes;
in particular both empty (`S = []`) sides produce no writes. -/
theorem reconcile_self_zero_writes (S : List (String × service))
    (hS : WFsnap S) (get : String → String → String → Option DNSRecord)
    (pre zoneName : String) (dnsTTL : Int) :
    onlyInFirst S S = [] ∧ serviceOnlyInFirst S S = [] ∧
      create get pre zoneName dnsTTL (onlyInFirst S S) = [] ∧
      remove pre zoneName (serviceOnlyInFirst S S) = [] := by
  have h1 : onlyInFirst S S = [] := by
    unfold onlyInFirst
    rw [List.filterMap_eq_nil_iff]
    intro p hp
    rw [lookupA_of_mem_nodup hS.1 hp]
    have hrefl := nodesAreEqual_refl (hS.2 p hp)
    simp [hrefl]
  have h2 : serviceOnlyInFirst S S = [] := by
    unfold serviceOnlyInFirst
    rw [List.filterMap_eq_nil_iff]
    intro p hp
    rcases hc : lookupA S p.1 with _ | v
    · rw [lookupA_eq_none_iff] at hc
      exact absurd (mem_keysA_of_mem hp) hc
    · rfl
  refine ⟨h1, h2, ?_, ?_⟩
  · rw [h1]
    rfl
  · rw [h2]
    rfl

/-- Witness for C2: the concrete one-service snapshot `snapD1` diffed
against itself produces no upsert, no deletion, and no write. -/
theorem reconcile_self_zero_writes_witness :
    onlyInFirst snapD1 snapD1 = [] ∧ serviceOnlyInFirst snapD1 snapD1 = [] ∧
      create (fun _ _ _ => none) "" "example.com" 60 (onlyInFirst snapD1 snapD1) = [] ∧
      remove "" "example.com" (serviceOnlyInFirst snapD1 snapD1) = [] :=
  reconcile_self_zero_writes snapD1
    (by constructor <;> simp [keysA, snapD1, WFnodes])
    (fun _ _ _ => none) "" "example.com" 60

/-- The key bookkeeping of `filterMap` under a key-preserving function:
looking up `k` in the image is the image of looking up `k`, when the
input keys are distinct. -/
theorem lookupA_filterMap_of_nodup {K V : Type} [DecidableEq K]
    {f : (K × V) → Option (K × V)} (hf : ∀ p q, f p = some q → q.1 = p.1)
    {l : List (K × V)} (hnd : (keysA l).Nodup) {k : K} {v : V}
    (hl : lookupA l k = some v) :
    lookupA (l.filterMap f) k = (f (k, v)).map Prod.snd := by
  induction l with
  | nil => exact absurd hl (by simp [lookupA])
  | cons p rest ih =>
      obtain ⟨k', v'⟩ := p
      simp only [keysA, List.map_cons, List.nodup_cons] at hnd
      by_cases hk : k' = k
      · subst hk
        have hv : v' = v := by
          have := hl
          simp [lookupA] at this
          exact this
        subst hv
        rcases hfc : f (k', v') with _ | q
        · rw [List.filterMap_cons_none hfc]
          have hnone : lookupA (List.filterMap f rest) k' = none := by
            rw [lookupA_eq_none_iff]
            intro hmem
            obtain ⟨p2, hp2, hp2k⟩ := List.mem_map.1 hmem
            obtain ⟨p3, hp3, hfp3⟩ := List.mem_filterMap.1 hp2
            have hp31 : p3.1 = k' := by rw [← hp2k, hf p3 p2 hfp3]
            exact hnd.1 (hp31 ▸ mem_keysA_of_mem hp3)
          exact hnone
        · rw [List.filterMap_cons_some hfc]
          have hq : q.1 = k' := hf _ _ hfc
          simp [lookupA, hq, hfc]
      · have hl' : lookupA rest k = some v := by
          have := hl
          simp [lookupA, hk] at this
          exact this
        rcases hfc : f (k', v') with _ | q
        · rw [List.filterMap_cons_none hfc]
          exact ih hnd.2 hl'
        · rw [List.filterMap_cons_some hfc]
          have hq : q.1 = k' := hf _ _ hfc
          have : lookupA (q :: List.filterMap f rest) k = lookupA (List.filterMap f rest) k := by
            obtain ⟨q1, q2⟩ := q
            simp at hq
            subst hq
            simp [lookupA, hk]
          rw [this]
          exact ih hnd.2 hl'

/-- C3: for a key present on both sides whose diff fires, the upsert
payload is the backfilled merge: each record ID is non-empty iff it was
non-empty on at least one side, the desired side wins when non-empty,
empty `id`/`name` and zero TTL fields are backfilled from the observed
side, and the instances come from the desired side. -/
theorem upsert_payload_backfill
    (D O : List (String × service)) (k : String) (sa sb : service)
    (hD : (keysA D).Nodup) (hsa : lookupA D k = some sa)
    (hsb : lookupA O k = some sb)
    (hdiff : (!nodesAreEqual sa.nodes sb.nodes || !decide (sa.ttls = sb.ttls)) = true) :
    lookupA (onlyInFirst D O) k = some (mergeService sa sb) ∧
      ((mergeService sa sb).ns1IDs.aRecID ≠ "" ↔
        (sa.ns1IDs.aRecID ≠ "" ∨ sb.ns1IDs.aRecID ≠ "")) ∧
      ((mergeService sa sb).ns1IDs.srvRecID ≠ "" ↔
        (sa.ns1IDs.srvRecID ≠ "" ∨ sb.ns1IDs.srvRecID ≠ "")) ∧
      (sa.ns1IDs.aRecID ≠ "" → (mergeService sa sb).ns1IDs.aRecID = sa.ns1IDs.aRecID) ∧
      (sa.ns1IDs.srvRecID ≠ "" → (mergeService sa sb).ns1IDs.srvRecID = sa.ns1IDs.srvRecID) ∧
      ((mergeService sa sb).id = if sa.id = "" then sb.id else sa.id) ∧
      ((mergeService sa sb).name = if sa.name = "" then sb.name else sa.name) ∧
      ((mergeService sa sb).ttls.aRecTTL =
        if sa.ttls.aRecTTL = 0 then sb.ttls.aRecTTL else sa.ttls.aRecTTL) ∧
      ((mergeService sa sb).ttls.srvRecTTL =
        if sa.ttls.srvRecTTL = 0 then sb.ttls.srvRecTTL else sa.ttls.srvRecTTL) ∧
      (mergeService sa sb).nodes = sa.nodes := by
  have hlen : ∀ s : String, (s.length = 0) = (s = "") :=
    fun s => propext (string_length_eq_zero_iff s)
  refine ⟨?_, ?_, ?_, ?_, ?_, ?_, ?_, ?_, ?_, rfl⟩
  · unfold onlyInFirst
    rw [lookupA_filterMap_of_nodup ?hf hD hsa]
    case hf =>
      intro p q hfq
      rcases hc : lookupA O p.1 with _ | s2 <;> rw [hc] at hfq
      · simp at hfq
        simp [← hfq]
      · dsimp only at hfq
        split at hfq
        · simp [← Option.some.inj hfq]
        · exact Option.noConfusion hfq
    rw [hsb]
    dsimp only
    rw [if_pos hdiff]
    rfl
  · unfold mergeService
    by_cases h : sa.ns1IDs.aRecID = "" <;> simp [hlen, h]
  · unfold mergeService
    by_cases h : sa.ns1IDs.srvRecID = "" <;> simp [hlen, h]
  · intro h
    unfold mergeService
    simp [hlen, h]
  · intro h
    unfold mergeService
    simp [hlen, h]
  · unfold mergeService
    simp [hlen]
  · unfold mergeService
    simp [hlen]
  · rfl
  · rfl

/-- A one-service observed snapshot sharing key `"a"` with `snapD1` but
with different TTLs and a stored A-record ID. -/
def snapO1 : List (String × service) :=
  [("a", { name := "a", ttls := { aRecTTL := 30, srvRecTTL := 30 },
           ns1IDs := { aRecID := "rA", srvRecID := "" } })]

/-- Witness for C3 at the concrete snapshots `snapD1` and `snapO1`. -/
theorem upsert_payload_backfill_witness :
    lookupA (onlyInFirst snapD1 snapO1) "a" =
      some (mergeService
        { name := "a", ttls := { aRecTTL := 1, srvRecTTL := 1 } }
        { name := "a", ttls := { aRecTTL := 30, srvRecTTL := 30 },
          ns1IDs := { aRecID := "rA", srvRecID := "" } }) :=
  (upsert_payload_backfill snapD1 snapO1 "a"
    { name := "a", ttls := { aRecTTL := 1, srvRecTTL := 1 } }
    { name := "a", ttls := { aRecTTL := 30, srvRecTTL := 30 },
      ns1IDs := { aRecID := "rA", srvRecID := "" } }
    (by simp [keysA, snapD1]) (by rfl) (by rfl) (by decide)).1

/-! ## Claim C6 -/

/-- The domain a deletion targets, following the claim's words: the
service's projected domain `prefix + name + "." + zoneName`, except that
when the service name equals the zone name the delete goes to exactly
the zone name, with no prefix. -/
def deleteDomainSpec (pre zoneName k : String) : String :=
  if k = zoneName then zoneName else pre ++ k ++ "." ++ zoneName

/-- Modelled from the claim's words, for comparison with the source's
`remove`: one delete per record type whose stored ID is non-empty (none
for an empty ID), grouped here by record type. -/
def removeSpec (pre zoneName : String) (services : List (String × service)) :
    List WriteOp :=
  (services.filter (fun p => decide (p.2.ns1IDs.aRecID ≠ ""))).map
      (fun p => WriteOp.deleteRec zoneName (deleteDomainSpec pre zoneName p.1) "A") ++
    (services.filter (fun p => decide (p.2.ns1IDs.srvRecID ≠ ""))).map
      (fun p => WriteOp.deleteRec zoneName (deleteDomainSpec pre zoneName p.1) "SRV")

theorem remove_cons (pre zoneName k : String) (s : service)
    (rest : List (String × service)) :
    remove pre zoneName ((k, s) :: rest) =
      ((if s.ns1IDs.aRecID.length ≠ 0 then
          [WriteOp.deleteRec zoneName (deleteDomainSpec pre zoneName k) "A"] else []) ++
        (if s.ns1IDs.srvRecID.length ≠ 0 then
          [WriteOp.deleteRec zoneName (deleteDomainSpec pre zoneName k) "SRV"] else [])) ++
        remove pre zoneName rest := by
  simp only [remove, List.flatMap_cons, deleteDomainSpec]

/-- C6: the deletes one pass issues are exactly (as a multiset) the
spec's deletion set — for every service in the deletion set, one delete
per record type with a non-empty stored ID, against the projected
domain, with the apex exception. -/
theorem remove_refines_spec_deletes (pre zoneName : String)
    (services : List (String × service)) :
    List.Perm (remove pre zoneName services) (removeSpec pre zoneName services) := by
  induction services with
  | nil => simp [remove, removeSpec]
  | cons p rest ih =>
      obtain ⟨k, s⟩ := p
      rw [remove_cons]
      by_cases hA : s.ns1IDs.aRecID = "" <;> by_cases hS : s.ns1IDs.srvRecID = "" <;>
        simp only [removeSpec, List.filter_cons, hA, hS, string_length_eq_zero_iff,
          String.length_empty, ne_eq, not_true_eq_false, not_false_eq_true,
          decide_True, decide_False, decide_not, Bool.not_true, Bool.not_false,
          if_true, if_false, ite_not, List.map_cons,
          List.nil_append, List.append_nil, List.singleton_append, List.cons_append] at *
      · exact ih
      · exact List.Perm.trans (List.Perm.cons _ ih) List.perm_middle.symm
      · exact List.Perm.cons _ ih
      · exact List.Perm.trans
          (List.Perm.cons _ (List.Perm.cons _ ih)) (List.Perm.cons _ List.perm_middle.symm)

/-! ## Claim C5 -/

/-- The domain field of a write operation. -/
def opDomain : WriteOp → String
  | WriteOp.createRec r => r.domain
  | WriteOp.updateRec r => r.domain
  | WriteOp.deleteRec _ d _ => d

theorem generateRecord_domain
    (get : String → String → String → Option DNSRecord)
    (zoneName : String) (dnsTTL : Int) (id name t : String)
    (hget : ∀ z d t2 r, get z d t2 = some r → r.domain = d)
    {r : DNSRecord} (h : generateRecord get zoneName dnsTTL id name t = some r) :
    r.domain = name ++ "." ++ zoneName := by
  unfold generateRecord at h
  by_cases hid : id = ""
  · rw [if_pos hid] at h
    simp at h
    rw [← h]
  · rw [if_neg hid] at h
    rcases hc : get zoneName (name ++ "." ++ zoneName) t with _ | r0 <;> rw [hc] at h
    · exact Option.noConfusion h
    · simp at h
      rw [← h]
      show r0.domain = name ++ "." ++ zoneName
      exact hget _ _ _ _ hc

theorem buildRecord_domain
    (get : String → String → String → Option DNSRecord)
    (zoneName : String) (dnsTTL : Int) (recID name t : String)
    (answers : List (List String))
    (hget : ∀ z d t2 r, get z d t2 = some r → r.domain = d) :
    (buildRecord get zoneName dnsTTL recID name t answers).domain =
      name ++ "." ++ zoneName := by
  unfold buildRecord
  rcases hc : generateRecord get zoneName dnsTTL recID name t with _ | r
  · rcases hc2 : generateRecord get zoneName dnsTTL "" name t with _ | r2
    · exfalso
      unfold generateRecord at hc2
      simp at hc2
    · show r2.domain = name ++ "." ++ zoneName
      exact generateRecord_domain get zoneName dnsTTL "" name t hget hc2
  · show r.domain = name ++ "." ++ zoneName
    exact generateRecord_domain get zoneName dnsTTL recID name t hget hc

/-- Amendment of C5: the upsert path has no apex special case — for a
well-behaved provider (fetched records carry the domain they were
requested at), every record `create` sends, including one for a service
named exactly like the zone, goes to `prefix + key + "." + zoneName`;
only the deletion path collapses to the apex. -/
theorem upsert_domain_never_apex
    (get : String → String → String → Option DNSRecord)
    (pre zoneName : String) (dnsTTL : Int)
    (services : List (String × service)) (op : WriteOp)
    (hget : ∀ z d t2 r, get z d t2 = some r → r.domain = d)
    (hop : op ∈ create get pre zoneName dnsTTL services) :
    ∃ p ∈ services, opDomain op = pre ++ p.1 ++ "." ++ zoneName := by
  unfold create at hop
  obtain ⟨p, hp, hmem⟩ := List.mem_flatMap.1 hop
  refine ⟨p, hp, ?_⟩
  have hup : ∀ (id : String) (r : DNSRecord), opDomain (upsertOpFor id r) = r.domain := by
    intro id r
    unfold upsertOpFor
    by_cases h : id = "" <;> simp [h, opDomain]
  simp only [List.mem_cons, List.mem_singleton] at hmem
  rcases hmem with rfl | rfl | hfalse
  · rw [hup]
    exact buildRecord_domain get zoneName dnsTTL _ _ _ _ hget
  · rw [hup]
    exact buildRecord_domain get zoneName dnsTTL _ _ _ _ hget
  · exact absurd hfalse (List.not_mem_nil _)

/-- Witness for the amended C5 at a concrete apex-named service. -/
theorem upsert_domain_never_apex_witness :
    ∃ p ∈ [("example.com", ({} : service))],
      opDomain (WriteOp.createRec
        { zone := "example.com", domain := "example.com.example.com", rtype := "A",
          answers := [], ttl := 60 }) = "" ++ p.1 ++ "." ++ "example.com" :=
  upsert_domain_never_apex (fun _ _ _ => none) "" "example.com" 60
    [("example.com", {})] _ (fun _ _ _ _ h => Option.noConfusion h)
    (by decide)

/-- Counterexample to C5 as stated: with zone `example.com` and a
registry service also named `example.com`, both upsert writes target
`example.com.example.com`, not the apex `example.com`. -/
theorem upsert_apex_claim_counterexample :
    (create (fun _ _ _ => none) "" "example.com" 60
        [("example.com", ({} : service))]).map opDomain =
      ["example.com.example.com", "example.com.example.com"] ∧
      "example.com.example.com" ≠ "example.com" := by
  constructor
  · rfl
  · decide

/-! ## Claim C4 -/

/-- A provider oracle whose stored records carry TTL 60. -/
def getRecTTL60 : String → String → String → Option DNSRecord :=
  fun z d t =>
    some { zone := z, domain := d, rtype := t, answers := [["1.1.1.1"]], ttl := 60 }

/-- Counterexample to C4 as stated: with `-ns1-dns-ttl=0`, the update
path fetches the existing record (TTL 60 here) and overwrites its TTL
with the configured 0 before writing, so the write does force a TTL
change on the record. -/
theorem zero_ttl_forces_change_counterexample :
    (generateRecord getRecTTL60 "example.com" 0 "r1" "s1" "A").map DNSRecord.ttl =
        some 0 ∧
      (getRecTTL60 "example.com" "s1.example.com" "A").map DNSRecord.ttl = some 60 ∧
      (0 : Int) ≠ 60 :=
  ⟨rfl, rfl, by decide⟩

/-- Amendment of C4: a zero registry-side TTL is treated as absent and
backfilled from the DNS-side TTL in the upsert payload; but the payload
TTLs are never sent — `generateRecord` overwrites the TTL of every
record the upsert path writes with the configured `dnsTTL`, so
`-ns1-dns-ttl=0` writes TTL 0 to every upserted record instead of never
forcing a TTL change. -/
theorem zero_ttl_backfilled_but_config_ttl_written
    (sa sb : service)
    (get : String → String → String → Option DNSRecord)
    (zoneName id name t : String) (r : DNSRecord)
    (hA : sa.ttls.aRecTTL = 0) (hS : sa.ttls.srvRecTTL = 0)
    (hgen : generateRecord get zoneName 0 id name t = some r) :
    (mergeService sa sb).ttls.aRecTTL = sb.ttls.aRecTTL ∧
      (mergeService sa sb).ttls.srvRecTTL = sb.ttls.srvRecTTL ∧
      r.ttl = 0 := by
  refine ⟨by simp [mergeService, hA], by simp [mergeService, hS], ?_⟩
  unfold generateRecord at hgen
  rcases hx : (if id = "" then
      some ({ zone := zoneName, domain := name ++ "." ++ zoneName, rtype := t } : DNSRecord)
    else get zoneName (name ++ "." ++ zoneName) t) with _ | r0 <;> rw [hx] at hgen
  · exact absurd hgen (by simp)
  · simp at hgen
    rw [← hgen]

/-- Witness for the amended C4 at concrete inputs. -/
theorem zero_ttl_backfilled_but_config_ttl_written_witness :
    (mergeService { ttls := { aRecTTL := 0, srvRecTTL := 0 } }
        { ttls := { aRecTTL := 30, srvRecTTL := 30 } }).ttls.aRecTTL = 30 ∧
      (mergeService { ttls := { aRecTTL := 0, srvRecTTL := 0 } }
        { ttls := { aRecTTL := 30, srvRecTTL := 30 } }).ttls.srvRecTTL = 30 ∧
      ({ zone := "example.com", domain := "s1.example.com", rtype := "A",
         answers := [], ttl := 0 } : DNSRecord).ttl = 0 :=
  zero_ttl_backfilled_but_config_ttl_written
    { ttls := { aRecTTL := 0, srvRecTTL := 0 } }
    { ttls := { aRecTTL := 30, srvRecTTL := 30 } }
    getRecTTL60 "example.com" "r1" "s1" "A"
    { zone := "example.com", domain := "s1.example.com", rtype := "A",
      answers := [], ttl := 0 }
    rfl rfl rfl

/-! ## NS1 zone ingest (`ns1.transformZoneRecords`)

The function mutates a `services` map while iterating over zone records
and their short-form answers.  It is embedded as explicit state passing;
the `ansFields[0]` index access, which panics in Go on an answer with no
fields, is embedded as an `Option` (`none` = panic). -/

/-- The fields of `dns.ZoneRecord` the ingest reads. -/
structure ZoneRecord : Type where
  domain : String := ""
  id : String := ""
  shortAns : List String := []
  ttl : Int := 0
  rtype : String := ""
deriving DecidableEq, Repr

/-- The service name derived from a record domain: strip the configured
prefix, then the `"." + zoneName` suffix. -/
def serviceNameOf (pre zoneName domain : String) : String :=
  trimSuf (trimPre domain pre) ("." ++ zoneName)

/-- Record-level enrichment: store the record's ID and TTL in the slot
of the record's type. -/
def svcWithRecordIDs (svc0 : service) (zrec : ZoneRecord) : service :=
  if zrec.rtype = "A" then
    { svc0 with ns1IDs := { svc0.ns1IDs with aRecID := zrec.id },
                ttls := { svc0.ttls with aRecTTL := zrec.ttl } }
  else if zrec.rtype = "SRV" then
    { svc0 with ns1IDs := { svc0.ns1IDs with srvRecID := zrec.id },
                ttls := { svc0.ttls with srvRecTTL := zrec.ttl } }
  else svc0

/-- One iteration of the short-answer loop: compute the address token
(field 3 of a four-field answer, else field 0 — `none` is the index
panic), then update the node map; a four-field SRV answer whose
priority, weight or port fails to parse leaves the service unchanged
(the Go `continue`). -/
def ansNodeOf (svc : service) (address : String) : node :=
  (lookupA svc.nodes address).getD {}

def withNode (svc : service) (address : String) (nd : node) : service :=
  { svc with nodes := insertA svc.nodes address nd }

def processAns (rtype : String) (svc : service) (ans : String) : Option service :=
  match (if (strFields ans).length = 4 then (strFields ans).get? 3
         else (strFields ans).get? 0) with
  | none => none
  | some address =>
      if rtype = "A" then
        some (withNode svc address { ansNodeOf svc address with aRecAnswer := address })
      else if rtype = "SRV" ∧ (strFields ans).length = 4 then
        match parseIntGo ((strFields ans).getD 0 ""),
              parseIntGo ((strFields ans).getD 1 ""),
              parseIntGo ((strFields ans).getD 2 "") with
        | some priority, some weight, some port =>
            some (withNode svc address
              { ansNodeOf svc address with
                  srvRecAnswers := insertA (ansNodeOf svc address).srvRecAnswers port
                    { priority := priority, weight := weight, port := port,
                      address := address } })
        | _, _, _ => some svc
      else some (withNode svc address (ansNodeOf svc address))

/-- The short-answer loop over one record's answers. -/
def processAnsList (rtype : String) : service → List String → Option service
  | svc, [] => some svc
  | svc, a :: rest =>
      match processAns rtype svc a with
      | none => none
      | some svc2 => processAnsList rtype svc2 rest

/-- One iteration of the record loop of `transformZoneRecords`: skip
non-A/SRV records; otherwise look up or create the service, populate IDs
and TTLs, run the answer loop, and store the service back. -/
def processRecord (pre zoneName : String) (services : List (String × service))
    (zrec : ZoneRecord) : Option (List (String × service)) :=
  if zrec.rtype ≠ "A" ∧ zrec.rtype ≠ "SRV" then some services
  else
    (processAnsList zrec.rtype
        (svcWithRecordIDs
          ((lookupA services (serviceNameOf pre zoneName zrec.domain)).getD
            { name := serviceNameOf pre zoneName zrec.domain })
          zrec)
        zrec.shortAns).map
      (insertA services (serviceNameOf pre zoneName zrec.domain))

/-- The record loop. -/
def processRecords (pre zoneName : String) :
    List (String × service) → List ZoneRecord → Option (List (String × service))
  | services, [] => some services
  | services, zrec :: rest =>
      match processRecord pre zoneName services zrec with
      | none => none
      | some services2 => processRecords pre zoneName services2 rest

/-- `ns1.transformZoneRecords`: the observed snapshot built from a
zone's records (`none` embeds the index panic on an answer with no
fields). -/
def transformZoneRecords (pre zoneName : String) (records : List ZoneRecord) :
    Option (List (String × service)) :=
  processRecords pre zoneName [] records

/-- The embedding reproduces the repository's own
`TestTransformZoneRecords` fixture. -/
example :
    transformZoneRecords "" "test.zone"
      [{ domain := "s1.test.zone", id := "dd", shortAns := ["1.1.1.1"],
         rtype := "A", ttl := 1 },
       { domain := "s1.test.zone", id := "dc", shortAns := ["1 1 1 1.1.1.1"],
         rtype := "SRV", ttl := 2 },
       { domain := "s2.test.zone", id := "db", shortAns := ["1 1 2 2.2.2.2"],
         rtype := "SRV", ttl := 3 }] =
      some
        [("s1",
          { name := "s1",
            ns1IDs := { aRecID := "dd", srvRecID := "dc" },
            ttls := { aRecTTL := 1, srvRecTTL := 2 },
            nodes := [("1.1.1.1",
              { aRecAnswer := "1.1.1.1",
                srvRecAnswers :=
                  [(1, { priority := 1, weight := 1, port := 1, address := "1.1.1.1" })] })] }),
         ("s2",
          { name := "s2",
            ns1IDs := { srvRecID := "db" },
            ttls := { srvRecTTL := 3 },
            nodes := [("2.2.2.2",
              { srvRecAnswers :=
                  [(2, { priority := 1, weight := 1, port := 2, address := "2.2.2.2" })] })] })] := by
  decide

/-! ## Claim C7 -/

theorem lookupA_insertA_self {K V : Type} [DecidableEq K]
    (l : List (K × V)) (k : K) (v : V) :
    lookupA (insertA l k v) k = some v := by
  induction l with
  | nil => simp [insertA, lookupA]
  | cons p rest ih =>
      obtain ⟨k', v'⟩ := p
      by_cases h : k' = k
      · subst h
        simp [insertA, lookupA]
      · simp [insertA, lookupA, h, ih]

/-- A four-field SRV answer whose priority, weight or port does not
parse leaves the service exactly unchanged (the loop `continue`s before
storing anything). -/
theorem processAns_malformed (svc : service) (ans : String)
    (h4 : (strFields ans).length = 4)
    (hbad : parseIntGo ((strFields ans).getD 0 "") = none ∨
            parseIntGo ((strFields ans).getD 1 "") = none ∨
            parseIntGo ((strFields ans).getD 2 "") = none) :
    processAns "SRV" svc ans = some svc := by
  unfold processAns
  rw [if_pos h4]
  rcases hga : (strFields ans).get? 3 with _ | addr
  · rw [List.get?_eq_none] at hga
    omega
  · dsimp only
    rw [if_neg (by decide : ¬("SRV" : String) = "A")]
    rw [if_pos (And.intro rfl h4 : ("SRV" : String) = "SRV" ∧ (strFields ans).length = 4)]
    rcases hp0 : parseIntGo ((strFields ans).getD 0 "") with _ | p0 <;>
      rcases hp1 : parseIntGo ((strFields ans).getD 1 "") with _ | p1 <;>
        rcases hp2 : parseIntGo ((strFields ans).getD 2 "") with _ | p2 <;>
          first
          | rfl
          | simp_all

/-- Removing one malformed answer anywhere in a record's answer list
does not change the answer loop's result. -/
theorem processAnsList_drop_malformed (l2 : List String) (bad : String)
    (h4 : (strFields bad).length = 4)
    (hbad : parseIntGo ((strFields bad).getD 0 "") = none ∨
            parseIntGo ((strFields bad).getD 1 "") = none ∨
            parseIntGo ((strFields bad).getD 2 "") = none) :
    ∀ (l1 : List String) (svc : service),
      processAnsList "SRV" svc (l1 ++ bad :: l2) =
        processAnsList "SRV" svc (l1 ++ l2) := by
  intro l1
  induction l1 with
  | nil =>
      intro svc
      simp only [List.nil_append, processAnsList]
      rw [processAns_malformed svc bad h4 hbad]
  | cons a l1 ih =>
      intro svc
      simp only [List.cons_append, processAnsList]
      rcases hpa : processAns "SRV" svc a with _ | svc2
      · rfl
      · exact ih svc2

theorem processAns_preserves {rtype : String} {svc : service} {ans : String}
    {svc2 : service} (h : processAns rtype svc ans = some svc2) :
    svc2.id = svc.id ∧ svc2.name = svc.name ∧ svc2.ttls = svc.ttls ∧
      svc2.ns1IDs = svc.ns1IDs := by
  unfold processAns at h
  rcases hga : (if (strFields ans).length = 4 then (strFields ans).get? 3
      else (strFields ans).get? 0) with _ | addr <;> rw [hga] at h <;> dsimp only at h
  · exact Option.noConfusion h
  · by_cases hA : rtype = "A"
    · rw [if_pos hA] at h
      obtain rfl := Option.some.inj h
      simp [withNode]
    · rw [if_neg hA] at h
      by_cases hS : rtype = "SRV" ∧ (strFields ans).length = 4
      · rw [if_pos hS] at h
        rcases hp0 : parseIntGo ((strFields ans).getD 0 "") with _ | p0 <;>
          rw [hp0] at h <;>
          rcases hp1 : parseIntGo ((strFields ans).getD 1 "") with _ | p1 <;>
            rw [hp1] at h <;>
            rcases hp2 : parseIntGo ((strFields ans).getD 2 "") with _ | p2 <;>
              rw [hp2] at h <;>
              (obtain rfl := Option.some.inj h
               simp [withNode])
      · rw [if_neg hS] at h
        obtain rfl := Option.some.inj h
        simp [withNode]

theorem processAnsList_preserves {rtype : String} :
    ∀ {l : List String} {svc svc2 : service},
      processAnsList rtype svc l = some svc2 →
      svc2.id = svc.id ∧ svc2.name = svc.name ∧ svc2.ttls = svc.ttls ∧
        svc2.ns1IDs = svc.ns1IDs := by
  intro l
  induction l with
  | nil =>
      intro svc svc2 h
      obtain rfl := Option.some.inj h
      exact ⟨rfl, rfl, rfl, rfl⟩
  | cons a rest ih =>
      intro svc svc2 h
      unfold processAnsList at h
      rcases hpa : processAns rtype svc a with _ | smid <;> rw [hpa] at h
      · exact Option.noConfusion h
      · have h1 := ih h
        have h2 := processAns_preserves hpa
        exact ⟨h1.1.trans h2.1, h1.2.1.trans h2.2.1, h1.2.2.1.trans h2.2.2.1,
          h1.2.2.2.trans h2.2.2.2⟩

/-- C7: a zone record of type SRV containing a malformed four-field
short answer (unparsable priority, weight or port) is ingested as if the
malformed answer were absent: the record's transformation result is the
same with the answer removed, and the containing service is still
present in the resulting snapshot, carrying the record's SRV record ID. -/
theorem malformed_srv_answer_dropped
    (pre zoneName : String) (l1 l2 : List String) (bad : String)
    (services services2 : List (String × service)) (zrec : ZoneRecord)
    (h4 : (strFields bad).length = 4)
    (hbad : parseIntGo ((strFields bad).getD 0 "") = none ∨
            parseIntGo ((strFields bad).getD 1 "") = none ∨
            parseIntGo ((strFields bad).getD 2 "") = none)
    (hrtype : zrec.rtype = "SRV")
    (hans : zrec.shortAns = l1 ++ bad :: l2)
    (hres : processRecord pre zoneName services zrec = some services2) :
    processRecord pre zoneName services zrec =
      processRecord pre zoneName services { zrec with shortAns := l1 ++ l2 } ∧
      ∃ svc2, lookupA services2 (serviceNameOf pre zoneName zrec.domain) = some svc2 ∧
        svc2.ns1IDs.srvRecID = zrec.id := by
  obtain ⟨dom, rid, sans, ttlv, rty⟩ := zrec
  dsimp only at hrtype hans hres ⊢
  subst hrtype
  subst hans
  have hcond : ¬(("SRV" : String) ≠ "A" ∧ ("SRV" : String) ≠ "SRV") := by decide
  constructor
  · unfold processRecord
    dsimp only
    rw [if_neg hcond, if_neg hcond]
    rw [processAnsList_drop_malformed l2 bad h4 hbad l1]
    rfl
  · unfold processRecord at hres
    rw [if_neg hcond] at hres
    dsimp only at hres
    rcases hpl : processAnsList "SRV"
        (svcWithRecordIDs
          ((lookupA services (serviceNameOf pre zoneName dom)).getD
            { name := serviceNameOf pre zoneName dom })
          { domain := dom, id := rid, shortAns := l1 ++ bad :: l2, ttl := ttlv,
            rtype := "SRV" })
        (l1 ++ bad :: l2) with _ | svcF <;> rw [hpl] at hres
    · exact Option.noConfusion hres
    · obtain rfl := Option.some.inj hres
      refine ⟨svcF, lookupA_insertA_self _ _ _, ?_⟩
      have hpres := (processAnsList_preserves hpl).2.2.2
      rw [hpres]
      rfl

/-- A concrete SRV zone record with one malformed and one well-formed
answer, for the C7 witness. -/
def zrecBadAns : ZoneRecord :=
  { domain := "s1.test.zone", id := "dc",
    shortAns := ["x 1 1 1.1.1.1", "1 1 1 1.1.1.1"], ttl := 2, rtype := "SRV" }

/-- The snapshot produced by ingesting `zrecBadAns` into an empty map. -/
def snapAfterBadAns : List (String × service) :=
  [("s1",
    { name := "s1", ns1IDs := { srvRecID := "dc" }, ttls := { srvRecTTL := 2 },
      nodes := [("1.1.1.1",
        { srvRecAnswers :=
            [(1, { priority := 1, weight := 1, port := 1, address := "1.1.1.1" })] })] })]

/-- Witness for C7 at the concrete record `zrecBadAns`. -/
theorem malformed_srv_answer_dropped_witness :
    processRecord "" "test.zone" [] zrecBadAns =
      processRecord "" "test.zone" [] { zrecBadAns with shortAns := ["1 1 1 1.1.1.1"] } ∧
      ∃ svc2, lookupA snapAfterBadAns (serviceNameOf "" "test.zone" zrecBadAns.domain) =
          some svc2 ∧ svc2.ns1IDs.srvRecID = zrecBadAns.id :=
  malformed_srv_answer_dropped "" "test.zone" [] ["1 1 1 1.1.1.1"] "x 1 1 1.1.1.1"
    [] snapAfterBadAns zrecBadAns (by decide) (Or.inl (by decide)) rfl rfl (by decide)

/-! ## Claim C10 -/

theorem fieldsAux_nil_iff : ∀ (cs acc : List Char),
    fieldsAux acc cs = [] ↔ acc = [] ∧ cs.all isSpaceGo = true := by
  intro cs
  induction cs with
  | nil =>
      intro acc
      unfold fieldsAux
      by_cases ha : acc.isEmpty = true
      · rw [if_pos ha]
        simp [List.isEmpty_iff.1 ha]
      · rw [if_neg ha]
        simp only [List.all_nil, and_true]
        constructor
        · intro h
          exact absurd h (by simp)
        · intro h
          exact absurd (by simp [h] : acc.isEmpty = true) ha
  | cons c cs ih =>
      intro acc
      unfold fieldsAux
      by_cases hsp : isSpaceGo c = true
      · rw [if_pos hsp]
        by_cases ha : acc.isEmpty = true
        · rw [if_pos ha]
          rw [ih []]
          simp [List.isEmpty_iff.1 ha, hsp]
        · rw [if_neg ha]
          have hane : acc ≠ [] := fun h => ha (by simp [h])
          simp [hane]
      · rw [if_neg hsp]
        rw [ih (c :: acc)]
        simp [hsp]

/-- A string has no fields iff all of its characters are whitespace (in
particular the empty string). -/
theorem strFields_nil_iff (s : String) :
    strFields s = [] ↔ s.data.all isSpaceGo = true := by
  unfold strFields
  rw [List.map_eq_nil_iff]
  rw [fieldsAux_nil_iff]
  simp

/-- The answer step panics (embedded: `none`) exactly on an answer with
no fields — the `ansFields[0]` access out of bounds. -/
theorem processAns_none_iff (rtype : String) (svc : service) (ans : String) :
    processAns rtype svc ans = none ↔ strFields ans = [] := by
  unfold processAns
  by_cases h4 : (strFields ans).length = 4
  · rw [if_pos h4]
    rcases hga : (strFields ans).get? 3 with _ | addr
    · rw [List.get?_eq_none] at hga
      omega
    · dsimp only
      constructor
      · intro h
        by_cases hA : rtype = "A"
        · rw [if_pos hA] at h
          exact Option.noConfusion h
        · rw [if_neg hA] at h
          by_cases hS : rtype = "SRV" ∧ (strFields ans).length = 4
          · rw [if_pos hS] at h
            rcases hp0 : parseIntGo ((strFields ans).getD 0 "") with _ | p0 <;>
              rw [hp0] at h <;>
              rcases hp1 : parseIntGo ((strFields ans).getD 1 "") with _ | p1 <;>
                rw [hp1] at h <;>
                rcases hp2 : parseIntGo ((strFields ans).getD 2 "") with _ | p2 <;>
                  rw [hp2] at h <;> exact Option.noConfusion h
          · rw [if_neg hS] at h
            exact Option.noConfusion h
      · intro h
        rw [h] at h4
        simp at h4
  · rw [if_neg h4]
    rcases hga : (strFields ans).get? 0 with _ | addr
    · rw [List.get?_eq_none] at hga
      simp only [Nat.le_zero] at hga
      simp [List.eq_nil_of_length_eq_zero hga]
    · have hne : strFields ans ≠ [] := by
        intro h
        rw [h] at hga
        exact Option.noConfusion hga
      dsimp only
      constructor
      · intro h
        by_cases hA : rtype = "A"
        · rw [if_pos hA] at h
          exact Option.noConfusion h
        · rw [if_neg hA] at h
          by_cases hS : rtype = "SRV" ∧ (strFields ans).length = 4
          · exact absurd hS.2 h4
          · rw [if_neg hS] at h
            exact Option.noConfusion h
      · intro h
        exact absurd h hne

theorem processAnsList_none_iff (rtype : String) :
    ∀ (l : List String) (svc : service),
      processAnsList rtype svc l = none ↔ ∃ ans ∈ l, strFields ans = [] := by
  intro l
  induction l with
  | nil =>
      intro svc
      simp [processAnsList]
  | cons a rest ih =>
      intro svc
      unfold processAnsList
      rcases hpa : processAns rtype svc a with _ | svc2
      · simp only [true_iff]
        exact ⟨a, List.mem_cons_self a rest, (processAns_none_iff rtype svc a).1 hpa⟩
      · rw [ih svc2]
        constructor
        · rintro ⟨ans, hans, hf⟩
          exact ⟨ans, List.mem_cons_of_mem a hans, hf⟩
        · rintro ⟨ans, hans, hf⟩
          rcases List.mem_cons.1 hans with rfl | hans2
          · exfalso
            rw [(processAns_none_iff rtype svc ans).2 hf] at hpa
            exact Option.noConfusion hpa
          · exact ⟨ans, hans2, hf⟩

theorem processRecord_none_iff (pre zoneName : String)
    (services : List (String × service)) (zrec : ZoneRecord) :
    processRecord pre zoneName services zrec = none ↔
      (zrec.rtype = "A" ∨ zrec.rtype = "SRV") ∧
        ∃ ans ∈ zrec.shortAns, strFields ans = [] := by
  unfold processRecord
  by_cases hsk : zrec.rtype ≠ "A" ∧ zrec.rtype ≠ "SRV"
  · rw [if_pos hsk]
    constructor
    · intro h
      exact Option.noConfusion h
    · rintro ⟨hor, -⟩
      rcases hor with h | h
      · exact absurd h hsk.1
      · exact absurd h hsk.2
  · rw [if_neg hsk]
    rw [Option.map_eq_none']
    rw [processAnsList_none_iff]
    have hor : zrec.rtype = "A" ∨ zrec.rtype = "SRV" := by
      rcases not_and_or.1 hsk with h | h
      · exact Or.inl (not_not.1 h)
      · exact Or.inr (not_not.1 h)
    simp [hor]

theorem processRecords_none_iff (pre zoneName : String) :
    ∀ (records : List ZoneRecord) (services : List (String × service)),
      processRecords pre zoneName services records = none ↔
        ∃ zrec ∈ records, (zrec.rtype = "A" ∨ zrec.rtype = "SRV") ∧
          ∃ ans ∈ zrec.shortAns, strFields ans = [] := by
  intro records
  induction records with
  | nil =>
      intro services
      simp [processRecords]
  | cons zrec rest ih =>
      intro services
      unfold processRecords
      rcases hpr : processRecord pre zoneName services zrec with _ | services2
      · simp only [true_iff]
        exact ⟨zrec, List.mem_cons_self zrec rest,
          (processRecord_none_iff pre zoneName services zrec).1 hpr⟩
      · rw [ih services2]
        constructor
        · rintro ⟨z, hz, hprop⟩
          exact ⟨z, List.mem_cons_of_mem zrec hz, hprop⟩
        · rintro ⟨z, hz, hprop⟩
          rcases List.mem_cons.1 hz with rfl | hz2
          · exfalso
            rw [(processRecord_none_iff pre zoneName services z).2 hprop] at hpr
            exact Option.noConfusion hpr
          · exact ⟨z, hz2, hprop⟩

/-- C10: the zone transformation is total exactly when every short
answer of every A or SRV record has at least one field; a record of
those types carrying an answer whose characters are all whitespace (in
particular the empty answer) makes the first-token index access go out
of bounds (`none`, the embedded panic). -/
theorem transformZoneRecords_total_iff (pre zoneName : String)
    (records : List ZoneRecord) :
    ((transformZoneRecords pre zoneName records).isSome = true ↔
      ∀ zrec ∈ records, (zrec.rtype = "A" ∨ zrec.rtype = "SRV") →
        ∀ ans ∈ zrec.shortAns, strFields ans ≠ []) ∧
      (∀ s : String, strFields s = [] ↔ s.data.all isSpaceGo = true) := by
  constructor
  · rw [Option.isSome_iff_ne_none]
    unfold transformZoneRecords
    rw [ne_eq, processRecords_none_iff]
    push_neg
    constructor
    · intro h zrec hz hor ans hans
      exact h zrec hz hor ans hans
    · intro h zrec hz hor ans hans
      exact h zrec hz hor ans hans
  · exact strFields_nil_iff

/-! ## Consul side (`catalog/consul.go`) -/

/-- The fields of `consulapi.CatalogService` the synchronizer reads. -/
structure CatalogService : Type where
  serviceAddress : String := ""
  address : String := ""
  servicePort : Int := 0
  serviceID : String := ""
deriving DecidableEq, Repr

/-- The fields of `consulapi.HealthCheck` the synchronizer reads. -/
structure HealthCheck : Type where
  status : String := ""
  serviceID : String := ""
deriving DecidableEq, Repr

/-- The DNS address of a node: `serviceAddress` if non-empty, else
`address`. -/
def consulAddr (n : CatalogService) : String :=
  if n.serviceAddress.length = 0 then n.address else n.serviceAddress

/-- `if node.aRecAnswer == "" { node.aRecAnswer = address }`. -/
def setAIfEmpty (nd : node) (address : String) : node :=
  if nd.aRecAnswer = "" then { nd with aRecAnswer := address } else nd

/-- `if _, ok := node.srvRecAnswers[port]; !ok { ... }`: first occurrence
of a port wins, with priority 1 and weight 1. -/
def addSrvIfAbsent (nd : node) (n : CatalogService) : node :=
  if lookupA nd.srvRecAnswers n.servicePort = none then
    { nd with
        srvRecAnswers :=
          insertA nd.srvRecAnswers n.servicePort
            { priority := 1, weight := 1, port := n.servicePort,
              address := consulAddr n } }
  else nd

/-- One iteration of `transformNodes`. -/
def consulNodeStep (nodes : List (String × node)) (n : CatalogService) :
    List (String × node) :=
  insertA nodes (consulAddr n)
    (addSrvIfAbsent (setAIfEmpty ((lookupA nodes (consulAddr n)).getD {}) (consulAddr n)) n)

/-- `consul.transformNodes`. -/
def transformNodes (cnodes : List CatalogService) : List (String × node) :=
  cnodes.foldl consulNodeStep []

/-- `consul.transformServices`: one bare service per name, keyed by
name. -/
def transformServices (names : List String) : List (String × service) :=
  names.map (fun k => (k, { id := k, name := k, consulID := k }))

/-- `consul.transformHealth`. -/
def transformHealth (chealths : List HealthCheck) : List (String × health) :=
  chealths.foldl
    (fun hs h =>
      insertA hs h.serviceID
        (if h.status = "passing" then health.passing
         else if h.status = "critical" then health.critical
         else health.unknown)) []

/-- The per-service enrichment of `consul.fetch`: on node-fetch failure
the loop `continue`s, leaving the bare `transformServices` entry in the
snapshot (in particular with zero TTLs); on success the nodes, the
healths (when their fetch succeeds) and the default TTLs are set. -/
def enrich (dnsTTL : Int)
    (fetchNodes : String → Option (List CatalogService))
    (fetchHealth : String → Option (List HealthCheck))
    (p : String × service) : String × service :=
  match fetchNodes p.1 with
  | none => p
  | some cnodes =>
      (p.1,
        { p.2 with
            nodes := transformNodes cnodes
            healths :=
              match fetchHealth p.1 with
              | some chealths => transformHealth chealths
              | none => p.2.healths
            ttls := { aRecTTL := dnsTTL, srvRecTTL := dnsTTL } })

/-- `consul.fetch`: the snapshot built from one successful list-services
call, with the per-service instance and health calls passed in as
oracles (`none` embeds a per-service fetch error). -/
def fetch (dnsTTL : Int) (names : List String)
    (fetchNodes : String → Option (List CatalogService))
    (fetchHealth : String → Option (List HealthCheck)) :
    List (String × service) :=
  (transformServices names).map (enrich dnsTTL fetchNodes fetchHealth)

/-- The embedding reproduces the repository's own
`TestConsulTransformNodes` fixture. -/
example :
    transformNodes
      [{ address := "1.1.1.1", servicePort := 3, serviceID := "s1" },
       { address := "1.1.1.1", servicePort := 4, serviceID := "s1" },
       { address := "2.2.2.2", servicePort := 3, serviceID := "s1" }] =
      [("1.1.1.1",
        { aRecAnswer := "1.1.1.1",
          srvRecAnswers :=
            [(3, { priority := 1, weight := 1, port := 3, address := "1.1.1.1" }),
             (4, { priority := 1, weight := 1, port := 4, address := "1.1.1.1" })] }),
       ("2.2.2.2",
        { aRecAnswer := "2.2.2.2",
          srvRecAnswers :=
            [(3, { priority := 1, weight := 1, port := 3, address := "2.2.2.2" })] })] := by
  decide

/-! ## Claim C8 -/

theorem enrich_fst (dnsTTL : Int)
    (fetchNodes : String → Option (List CatalogService))
    (fetchHealth : String → Option (List HealthCheck)) (p : String × service) :
    (enrich dnsTTL fetchNodes fetchHealth p).1 = p.1 := by
  unfold enrich
  rcases h : fetchNodes p.1 with _ | c <;> rfl

theorem enrich_of_none (dnsTTL : Int)
    (fetchNodes : String → Option (List CatalogService))
    (fetchHealth : String → Option (List HealthCheck)) (p : String × service)
    (h : fetchNodes p.1 = none) :
    enrich dnsTTL fetchNodes fetchHealth p = p := by
  unfold enrich
  rw [h]

/-- Counterexample to C8 as stated: with configured TTL 60 and a
service whose instance fetch fails, the rebuilt snapshot contains the
service, but with TTLs 0, not the configured default — the `continue`
skips the TTL assignment. -/
theorem fetch_failed_service_keeps_zero_ttl :
    fetch 60 ["s1"] (fun _ => none) (fun _ => none) =
      [("s1", { id := "s1", name := "s1", consulID := "s1" })] ∧
      ({ id := "s1", name := "s1", consulID := "s1" } : service).ttls.aRecTTL = 0 ∧
      (0 : Int) ≠ 60 :=
  ⟨rfl, rfl, by decide⟩

/-- Amendment of C8: every name returned by list-services appears in the
snapshot; a service whose instance fetch fails is still included, as the
bare entry with empty instances — but with zero TTLs, not the configured
default; only services whose instance fetch succeeded carry the
configured default TTLs on both records. -/
theorem fetch_snapshot_contents (dnsTTL : Int) (names : List String)
    (fetchNodes : String → Option (List CatalogService))
    (fetchHealth : String → Option (List HealthCheck)) :
    (fetch dnsTTL names fetchNodes fetchHealth).map Prod.fst = names ∧
      (∀ id0 ∈ names, fetchNodes id0 = none →
        ((id0, { id := id0, name := id0, consulID := id0 }) : String × service) ∈
          fetch dnsTTL names fetchNodes fetchHealth) ∧
      (∀ p ∈ fetch dnsTTL names fetchNodes fetchHealth, fetchNodes p.1 ≠ none →
        p.2.ttls = { aRecTTL := dnsTTL, srvRecTTL := dnsTTL }) := by
  refine ⟨?_, ?_, ?_⟩
  · unfold fetch
    rw [List.map_map]
    have hcomp : (Prod.fst ∘ enrich dnsTTL fetchNodes fetchHealth) = Prod.fst :=
      funext (enrich_fst dnsTTL fetchNodes fetchHealth)
    rw [hcomp]
    unfold transformServices
    rw [List.map_map]
    have hid : (Prod.fst ∘ fun k : String =>
        (k, ({ id := k, name := k, consulID := k } : service))) = id :=
      funext (fun k => rfl)
    rw [hid, List.map_id]
  · intro id0 hid hnone
    unfold fetch
    have hmem : ((id0, { id := id0, name := id0, consulID := id0 }) : String × service) ∈
        transformServices names := List.mem_map.2 ⟨id0, hid, rfl⟩
    have hstep : enrich dnsTTL fetchNodes fetchHealth
        (id0, { id := id0, name := id0, consulID := id0 }) ∈
        (transformServices names).map (enrich dnsTTL fetchNodes fetchHealth) :=
      List.mem_map_of_mem _ hmem
    rwa [enrich_of_none dnsTTL fetchNodes fetchHealth _ hnone] at hstep
  · intro p hp hne
    unfold fetch at hp
    obtain ⟨q, hq, rfl⟩ := List.mem_map.1 hp
    rw [enrich_fst] at hne
    unfold enrich
    rcases hc : fetchNodes q.1 with _ | c
    · exact absurd hc hne
    · rfl

/-! ## Claim C9: the fetch loop's failure budget (`fetchIndefinitely`)

The loop is embedded as a function of the finite trace of fetch
outcomes it observes (`true` = successful fetch, `false` = failed
fetch): the counter `subsequentErrors` is incremented on failure and the
loop returns when it exceeds 10; a success resets it to 0.  The result
is `true` iff the loop terminates for failure reasons within the trace
(in Go, `return`, which closes the `stopped` channel via `defer`); the
wait-index bookkeeping, the trigger send and the stop-channel select are
omitted — the claim concerns only failure-driven termination. -/

/-- `consul.fetchIndefinitely`'s failure accounting. -/
def fetchLoop : Nat → List Bool → Bool
  | _, [] => false
  | subsequentErrors, ok :: rest =>
      if ok then fetchLoop 0 rest
      else if subsequentErrors + 1 > 10 then true
      else fetchLoop (subsequentErrors + 1) rest

theorem fetchLoop_replicate : ∀ (n c : Nat) (l2 : List Bool),
    11 ≤ c + n → c ≤ 10 → fetchLoop c (List.replicate n false ++ l2) = true := by
  intro n
  induction n with
  | zero =>
      intro c l2 h1 h2
      omega
  | succ n ih =>
      intro c l2 h1 h2
      rw [List.replicate_succ, List.cons_append]
      simp only [fetchLoop]
      rw [if_neg (by simp : ¬(false = true))]
      by_cases hc : c + 1 > 10
      · rw [if_pos hc]
      · rw [if_neg hc]
        exact ih (c + 1) l2 (by omega) (by omega)

theorem fetchLoop_of_run : ∀ (l1 : List Bool) (c : Nat) (l2 : List Bool),
    c ≤ 10 → fetchLoop c (l1 ++ List.replicate 11 false ++ l2) = true := by
  intro l1
  induction l1 with
  | nil =>
      intro c l2 hc
      rw [List.nil_append]
      exact fetchLoop_replicate 11 c l2 (by omega) hc
  | cons b l1 ih =>
      intro c l2 hc
      rw [List.cons_append]
      rcases b with _ | _
      · simp only [fetchLoop]
        rw [if_neg (by simp : ¬(false = true))]
        by_cases hcc : c + 1 > 10
        · rw [if_pos hcc]
        · rw [if_neg hcc]
          exact ih (c + 1) l2 (by omega)
      · simp only [fetchLoop, if_true]
        exact ih 0 l2 (by omega)

theorem fetchLoop_true_split : ∀ (t : List Bool) (c : Nat), fetchLoop c t = true →
    (∃ n l2, t = List.replicate n false ++ l2 ∧ 11 ≤ c + n) ∨
      ∃ l1 l2, t = l1 ++ List.replicate 11 false ++ l2 := by
  intro t
  induction t with
  | nil =>
      intro c h
      exact absurd h (by simp [fetchLoop])
  | cons b rest ih =>
      intro c h
      rcases b with _ | _
      · simp only [fetchLoop] at h
        rw [if_neg (by simp : ¬(false = true))] at h
        by_cases hc : c + 1 > 10
        · left
          exact ⟨1, rest, by simp, by omega⟩
        · rw [if_neg hc] at h
          rcases ih (c + 1) h with ⟨n, l2, hrest, hn⟩ | ⟨l1, l2, hrest⟩
          · left
            exact ⟨n + 1, l2, by rw [hrest, List.replicate_succ, List.cons_append],
              by omega⟩
          · right
            exact ⟨false :: l1, l2, by rw [hrest]; rfl⟩
      · simp only [fetchLoop, if_true] at h
        rcases ih 0 h with ⟨n, l2, hrest, hn⟩ | ⟨l1, l2, hrest⟩
        · right
          refine ⟨[true], List.replicate (n - 11) false ++ l2, ?_⟩
          rw [hrest]
          have hsplit : List.replicate n (false : Bool) =
              List.replicate 11 false ++ List.replicate (n - 11) false := by
            rw [← List.replicate_add]
            congr 1
            omega
          rw [hsplit]
          simp
        · right
          exact ⟨true :: l1, l2, by rw [hrest]; rfl⟩

/-- C9: the fetch loop terminates for failure reasons exactly when its
outcome trace contains eleven consecutive failures with no intervening
success; and a single successful fetch resets the consecutive-failure
counter to zero. -/
theorem fetch_loop_failure_threshold :
    (∀ trace : List Bool, fetchLoop 0 trace = true ↔
        ∃ l1 l2, trace = l1 ++ List.replicate 11 false ++ l2) ∧
      ∀ (c : Nat) (rest : List Bool), fetchLoop c (true :: rest) = fetchLoop 0 rest := by
  constructor
  · intro trace
    constructor
    · intro h
      rcases fetchLoop_true_split trace 0 h with ⟨n, l2, ht, hn⟩ | hsp
      · refine ⟨[], List.replicate (n - 11) false ++ l2, ?_⟩
        rw [ht]
        have hsplit : List.replicate n (false : Bool) =
            List.replicate 11 false ++ List.replicate (n - 11) false := by
          rw [← List.replicate_add]
          congr 1
          omega
        rw [hsplit]
        simp
      · exact hsp
    · rintro ⟨l1, l2, rfl⟩
      exact fetchLoop_of_run l1 0 l2 (by omega)
  · intro c rest
    simp only [fetchLoop, if_true]

end ConsulNS1
